import Mathlib

/-!
# Verification of the unifi-access-hubitat-middleware core

Shallow embedding of the middleware's pure decision logic, translated from
the Go sources:

* `utils`   — `StringSlicesEqual`, the multiset equality used for webhook
  registration matching (pkg/utils).
* `config`  — the door registry (`config.Door`, `getDoorByUacID`).
* `uac`     — the Access-Controller client's data model and the signature
  verifier (`parseSignatureHeader`, `computeSignature`, `validatePayload`),
  together with the idempotent controller-side assertions
  (`AssertToggleDoorUnlock`, `AssertUnlockDoor`, `AssertLockDoor`).
* `hubitat` — the hub client's `assertDeviceState` idempotent convergence
  primitive and its `AssertDoor*` wrappers.
* `main`    — the event router `handleUacEvent` and the polling reconciler
  `pollUacStates`, split into its startup-snapshot pass and its per-tick
  drift-detection body.

Effectful calls (HTTP round trips) are modelled by passing their outcomes in
as explicit arguments (fetch results as `Except`/`Option` values, the success
of an outbound command as a `Bool`) and by returning the list of outbound
calls a function issues alongside its result.  Go strings and byte slices on
the signature path are modelled as `List Nat` byte lists; elsewhere Go
strings are Lean `String`s.  Go `map` lookups with their zero-value default
are modelled by association lists with an explicit default.
-/

/-- Equality of embedded Go `(result, error)` values is decidable, so the
witnesses below can be checked by evaluation. -/
instance {ε α : Type} [DecidableEq ε] [DecidableEq α] : DecidableEq (Except ε α) := fun x y =>
  match x, y with
  | .ok a, .ok b => if h : a = b then isTrue (by rw [h]) else isFalse (by simp [h])
  | .ok _, .error _ => isFalse (by simp)
  | .error _, .ok _ => isFalse (by simp)
  | .error e, .error f => if h : e = f then isTrue (by rw [h]) else isFalse (by simp [h])

namespace utils

/-- Byte-for-byte model of `pkg/utils.StringSlicesEqual`'s first loop:
the Go `counts` map (`map[string]int`, zero-valued by default) is a total
function `String → Int`, and each element of `a` increments its count. -/
def incCounts (m : String → Int) : List String → String → Int
  | [] => m
  | v :: rest => incCounts (fun k => if k = v then m k + 1 else m k) rest

/-- The second loop of `StringSlicesEqual`: decrement each element of `b`,
returning `false` the moment a count drops below zero. -/
def decCounts (m : String → Int) : List String → Bool
  | [] => true
  | v :: rest =>
    let m' := fun k => if k = v then m k - 1 else m k
    if m' v < 0 then false else decCounts m' rest

/-- `pkg/utils.StringSlicesEqual`: length check, then the count/decrement
loops over the shared `counts` map. -/
def StringSlicesEqual (a b : List String) : Bool :=
  if a.length ≠ b.length then false
  else decCounts (incCounts (fun _ => 0) a) b

end utils

namespace config

/-- `cmd/config.Door`, one entry of the door registry.  The lock device is
optional: `main.go` guards every use with `door.HubitatLockID != nil`, so the
pointer field is an `Option`. -/
structure Door where
  uacID : String
  hubitatContactID : String
  hubitatLockID : Option String
  hubitatSwitchID : String
deriving DecidableEq

end config

/-- `main.getDoorByUacID`: first registry entry whose `uac_id` matches. -/
def getDoorByUacID (doors : List config.Door) (uacID : String) : Option config.Door :=
  doors.find? (fun d => d.uacID == uacID)

namespace uac

/-- `internal/uac.Door`, restricted to the fields the embedded operations
read (`ID`, `DoorPositionStatus`, `DoorLockRelayStatus`); the remaining JSON
fields are never consulted by the translated code. -/
structure Door where
  id : String
  doorPositionStatus : String
  doorLockRelayStatus : String
deriving DecidableEq

/-- `internal/uac.DoorLockRule`. -/
structure DoorLockRule where
  type : String
  endedTime : Int
deriving DecidableEq

/-- One outbound mutating call of the Access-Controller client.  The reads
(`FetchDoor`, `GetDoorLockRule`) are modelled as inputs, not calls. -/
inductive UacCall where
  | unlockDoor (doorID : String)
  | setDoorLockRule (doorID ruleType : String)
deriving DecidableEq

/-- `internal/uac.Client.AssertToggleDoorUnlock`.  `fetch` is the outcome of
the `FetchDoor` read, `putOk` whether the `PUT …/unlock` round trip returns
the success sentinel.  Result: the Go error value and the list of mutating
calls issued. -/
def AssertToggleDoorUnlock (fetch : Except String Door) (putOk : Bool)
    (doorID : String) : Except String Unit × List UacCall :=
  match fetch with
  | .error e => (.error ("failed to fetch door: " ++ e), [])
  | .ok door =>
    if door.doorLockRelayStatus = "unlock" then
      (.ok (), [])  -- Already unlocked, skip
    else
      ((if putOk then .ok () else .error "API error"), [UacCall.unlockDoor doorID])

/-- `internal/uac.Client.AssertUnlockDoor`: read the current lock rule and
only issue `setDoorLockRule "keep_unlock"` when the rule is not already
`keep_unlock`. -/
def AssertUnlockDoor (getRule : Except String DoorLockRule) (putOk : Bool)
    (doorID : String) : Except String Unit × List UacCall :=
  match getRule with
  | .error e => (.error e, [])
  | .ok rule =>
    if rule.type = "keep_unlock" then
      (.ok (), [])  -- Already unlocked, skip
    else
      ((if putOk then .ok () else .error "API error"),
       [UacCall.setDoorLockRule doorID "keep_unlock"])

/-- `internal/uac.Client.AssertLockDoor`: read the current lock rule and only
issue `setDoorLockRule "reset"` when the rule is not already the empty
default. -/
def AssertLockDoor (getRule : Except String DoorLockRule) (putOk : Bool)
    (doorID : String) : Except String Unit × List UacCall :=
  match getRule with
  | .error e => (.error e, [])
  | .ok rule =>
    if rule.type = "" then
      (.ok (), [])  -- Already locked, skip
    else
      ((if putOk then .ok () else .error "API error"),
       [UacCall.setDoorLockRule doorID "reset"])

end uac

namespace hubitat

/-- `internal/hubitat.DeviceInfo`, restricted to the fields
`assertDeviceState` reads.  Go's `Attributes []map[string]any` becomes a list
of association lists (a missing key or a non-string value both fail the `==`
comparison against a string, so `Option String` lookups are faithful);
`Capabilities []any` entries that are not strings likewise never equal a
string capability name, so only the string entries matter. -/
structure DeviceInfo where
  attributes : List (List (String × String))
  capabilities : List String
  commands : List String
deriving DecidableEq

/-- `internal/hubitat.hasCapability`. -/
def hasCapability (deviceInfo : DeviceInfo) (capabilityName : String) : Bool :=
  deviceInfo.capabilities.any (fun c => c == capabilityName)

/-- `internal/hubitat.hasCommand`. -/
def hasCommand (deviceInfo : DeviceInfo) (commandName : String) : Bool :=
  deviceInfo.commands.any (fun c => c == commandName)

/-- Lookup in one attribute map (`attr["name"]`, `attr["currentValue"]`). -/
def attrLookup (attr : List (String × String)) (key : String) : Option String :=
  match attr.find? (fun p => p.1 == key) with
  | some p => some p.2
  | none => none

/-- `internal/hubitat.Client.assertDeviceState`.  `fetch` is the outcome of
the `GetDeviceInfo` read and `sendOk` whether the `sendDeviceCommand` round
trip succeeds.  Result: the Go error value and the list of
`(deviceID, command)` outbound commands issued. -/
def assertDeviceState (fetch : Except String DeviceInfo) (sendOk : Bool)
    (deviceID capability command attributeName desiredValue : String) :
    Except String Unit × List (String × String) :=
  match fetch with
  | .error e => (.error ("failed to get device info for device " ++ deviceID ++ ": " ++ e), [])
  | .ok deviceInfo =>
    if ¬ hasCapability deviceInfo capability then
      (.error ("device " ++ deviceID ++ " does not have " ++ capability ++ " capability"), [])
    else if ¬ hasCommand deviceInfo command then
      (.error ("device " ++ deviceID ++ " does not support " ++ command ++ " command"), [])
    else if deviceInfo.attributes.any (fun attr =>
        attrLookup attr "name" == some attributeName &&
        attrLookup attr "currentValue" == some desiredValue) then
      (.ok (), [])  -- Already in desired state
    else
      ((if sendOk then .ok ()
        else .error ("failed to send " ++ command ++ " command to device " ++ deviceID)),
       [(deviceID, command)])

/-- `AssertDoorContactOpened`. -/
def AssertDoorContactOpened (fetch : Except String DeviceInfo) (sendOk : Bool)
    (doorID : String) : Except String Unit × List (String × String) :=
  assertDeviceState fetch sendOk doorID "ContactSensor" "open" "contact" "open"

/-- `AssertDoorContactClosed`. -/
def AssertDoorContactClosed (fetch : Except String DeviceInfo) (sendOk : Bool)
    (doorID : String) : Except String Unit × List (String × String) :=
  assertDeviceState fetch sendOk doorID "ContactSensor" "close" "contact" "close"

/-- `AssertDoorLockUnlocked`. -/
def AssertDoorLockUnlocked (fetch : Except String DeviceInfo) (sendOk : Bool)
    (doorID : String) : Except String Unit × List (String × String) :=
  assertDeviceState fetch sendOk doorID "Lock" "unlock" "lock" "unlocked"

/-- `AssertDoorLockLocked`. -/
def AssertDoorLockLocked (fetch : Except String DeviceInfo) (sendOk : Bool)
    (doorID : String) : Except String Unit × List (String × String) :=
  assertDeviceState fetch sendOk doorID "Lock" "lock" "lock" "locked"

/-- `AssertDoorSwitchOn`. -/
def AssertDoorSwitchOn (fetch : Except String DeviceInfo) (sendOk : Bool)
    (doorID : String) : Except String Unit × List (String × String) :=
  assertDeviceState fetch sendOk doorID "Switch" "on" "switch" "on"

end hubitat

/-! ## The event router (`cmd/main.go`, `handleUacEvent`)

The router's outbound effects are invocations of the hubitat client's
`AssertDoor*` helpers; `HubAction` records one such invocation.  The
fixed 200 ms pre-actuation sleep before `AssertDoorSwitchOn` is a real-time
detail with no effect on which calls are made and is not modelled. -/

/-- One hubitat-client assert invocation made by the router or the poller. -/
inductive HubAction where
  | assertDoorSwitchOn (deviceID : String)
  | assertDoorContactOpened (deviceID : String)
  | assertDoorContactClosed (deviceID : String)
  | assertDoorLockLocked (deviceID : String)
  | assertDoorLockUnlocked (deviceID : String)
deriving DecidableEq

/-- The anonymous payload struct `handleUacEvent` unmarshals
`access.door.unlock` event data into. -/
structure UnlockPayload where
  locationID : String
  actorName : String
  actorType : String
  result : String
deriving DecidableEq

/-- The anonymous payload struct `handleUacEvent` unmarshals
`access.device.dps_status` event data into. -/
structure DpsPayload where
  locationID : String
  eventType : String
  status : String
deriving DecidableEq

/-- `internal/uac.WebhookEvent` as the router sees it: the raw `Data` JSON is
represented by the outcome of `json.Unmarshal` into each branch's payload
struct (`none` = unmarshal error, which the branch logs and drops). -/
structure WebhookEvent where
  event : String
  unlockData : Option UnlockPayload
  dpsData : Option DpsPayload
deriving DecidableEq

/-- `main.handleUacEvent`: the hub assert invocations the router issues for
one Access-Controller event.  Every dropped path returns `[]`. -/
def handleUacEvent (doors : List config.Door) (evt : WebhookEvent) : List HubAction :=
  if evt.event = "access.door.unlock" then
    match evt.unlockData with
    | none => []  -- unmarshal failure: logged, dropped
    | some payload =>
      if payload.actorType = "open-api" ∧
         payload.actorName = "unifi-access-hubitat-middleware" then
        []  -- triggered by this middleware itself: ignored
      else if payload.result ≠ "Access Granted" then
        []  -- not granted: ignored
      else
        match getDoorByUacID doors payload.locationID with
        | none => []  -- unknown door: logged, dropped
        | some door =>
          -- (after a 200 ms sleep in the source)
          [HubAction.assertDoorSwitchOn door.hubitatSwitchID]
  else if evt.event = "access.device.dps_status" then
    match evt.dpsData with
    | none => []  -- unmarshal failure: logged, dropped
    | some payload =>
      if payload.eventType ≠ "dps_change" then
        []  -- not a dps_change sub-event: logged, dropped
      else
        match getDoorByUacID doors payload.locationID with
        | none => []  -- unknown door: logged, dropped
        | some door =>
          if payload.status = "open" then
            [HubAction.assertDoorContactOpened door.hubitatContactID]
          else if payload.status = "close" then
            [HubAction.assertDoorContactClosed door.hubitatContactID]
          else
            []  -- unknown door status: logged, dropped
  else
    []  -- unknown event kind: logged, dropped

/-! ## The polling reconciler (`cmd/main.go`, `pollUacStates`)

`pollUacStates` has two phases: a startup snapshot over the fetched door
list, then a 5-second ticker loop doing lock-rule drift detection.  Each is
embedded separately; the ticker's scheduling and the cancellation signal are
real-time/concurrency details outside the embedding. -/

/-- The startup-snapshot loop body of `pollUacStates`, given a successfully
fetched door list.  Returns the hub assert invocations it issues and whether
control reaches the polling loop afterwards: on a fetched door with no
registry entry the Go code executes `return` — not `continue` — which
abandons the rest of the list *and* the whole polling goroutine, hence the
`Bool`. -/
def pollUacStatesStartup (registry : List config.Door) :
    List uac.Door → List HubAction × Bool
  | [] => ([], true)
  | d :: rest =>
    match getDoorByUacID registry d.id with
    | none => ([], false)  -- `return`: the goroutine exits here
    | some door =>
      let acts :=
        if d.doorPositionStatus = "open" then
          [HubAction.assertDoorContactOpened door.hubitatContactID]
        else if d.doorPositionStatus = "close" then
          [HubAction.assertDoorContactClosed door.hubitatContactID]
        else
          []  -- no switch case for other statuses
      let tail := pollUacStatesStartup registry rest
      (acts ++ tail.1, tail.2)

/-- One log line of the drift-detection loop (the loop's observable behaviour
besides its assert calls and its state map). -/
inductive PollLog where
  | ruleFetchFailed (doorID : String)
  | unknownRuleType (doorID ruleType : String)
  | assertFailed (doorID : String)
deriving DecidableEq

/-- Lookup in the `doorLockRuleStates` map with Go's zero-value default:
a key never written reads as `""`, the unset sentinel. -/
def lookupState : List (String × String) → String → String
  | [], _ => ""
  | (k, v) :: rest, key => if k = key then v else lookupState rest key

/-- Map write for `doorLockRuleStates`. -/
def setState : List (String × String) → String → String → List (String × String)
  | [], key, val => [(key, val)]
  | (k, v) :: rest, key, val =>
    if k = key then (key, val) :: rest else (k, v) :: setState rest key val

/-- The accumulated effects of one drift-detection tick: the
`doorLockRuleStates` map, the hub assert invocations issued, and the error
logs written. -/
structure TickAcc where
  states : List (String × String)
  calls : List HubAction
  logs : List PollLog
deriving DecidableEq

/-- The translation of a polled lock rule into the recorded state
(`keep_unlock` → `"unlocked"`, empty → `"locked"`, anything else → unknown,
logged and skipped). -/
def lockRuleState (ruleType : String) : Option String :=
  if ruleType = "keep_unlock" then some "unlocked"
  else if ruleType = "" then some "locked"
  else none

/-- The per-door body of the drift-detection loop in `pollUacStates`.
`getRule` is the outcome of `GetDoorLockRule` (`none` = error) and `hubErr`
says whether the `AssertDoorLock*` call for a given lock device returns an
error (the code logs the error and proceeds identically either way). -/
def pollDoorStep (getRule : String → Option uac.DoorLockRule)
    (hubErr : String → Bool) (acc : TickAcc) (door : config.Door) : TickAcc :=
  match door.hubitatLockID with
  | none => acc  -- no lock associated with this door
  | some lockID =>
    match getRule door.uacID with
    | none => { acc with logs := acc.logs ++ [PollLog.ruleFetchFailed door.uacID] }
    | some rule =>
      match lockRuleState rule.type with
      | none => { acc with logs := acc.logs ++ [PollLog.unknownRuleType door.uacID rule.type] }
      | some curr =>
        let prev := lookupState acc.states door.uacID
        if curr = prev then acc
        else
          { states := setState acc.states door.uacID curr,
            calls := acc.calls ++
              (if curr = "locked" then [HubAction.assertDoorLockLocked lockID]
               else if curr = "unlocked" then [HubAction.assertDoorLockUnlocked lockID]
               else []),
            logs := acc.logs ++ (if hubErr lockID then [PollLog.assertFailed door.uacID] else []) }

/-- One full tick of the drift-detection loop of `pollUacStates`: the
per-door body folded over the configured doors, starting from the current
`doorLockRuleStates` map. -/
def pollUacStatesTick (registry : List config.Door)
    (getRule : String → Option uac.DoorLockRule) (hubErr : String → Bool)
    (states : List (String × String)) : TickAcc :=
  registry.foldl (pollDoorStep getRule hubErr) ⟨states, [], []⟩

/-- The assert invocations of a tick that target hub lock device `L`. -/
def lockCallsFor (L : String) (calls : List HubAction) : Nat :=
  (calls.filter (fun a =>
    a == HubAction.assertDoorLockLocked L || a == HubAction.assertDoorLockUnlocked L)).length

/-! ## Byte-level infrastructure for the signature verifier
(`internal/uac/events.go`)

Go strings and `[]byte` values on this path are byte lists (`List Nat`).
The helpers below model the Go standard-library calls the verifier makes:
`strings.Split`, `strconv.ParseInt(_, 10, 64)`, `hex.DecodeString`,
`hex.EncodeToString`, `fmt.Sprintf` with a decimal verb, and
`hmac.New(sha256.New, _)`. -/

/-- `strings.Split` on a one-byte separator: every occurrence splits, empty
parts included, and the empty input yields one empty part. -/
def splitOnByte (sep : Nat) : List Nat → List (List Nat)
  | [] => [[]]
  | c :: rest =>
    match splitOnByte sep rest with
    | [] => [[]]  -- unreachable: the split of any list is nonempty
    | p :: ps => if c = sep then [] :: p :: ps else (c :: p) :: ps

/-- An ASCII decimal digit byte. -/
def isDigitByte (c : Nat) : Bool := 48 ≤ c && c ≤ 57

/-- The value of a decimal digit string, most significant digit first. -/
def decValue (l : List Nat) : Nat := l.foldl (fun a d => a * 10 + (d - 48)) 0

/-- The all-digits fast path of `strconv.ParseInt`'s unsigned core: at least
one byte, every byte a decimal digit. -/
def parseDecDigits (l : List Nat) : Option Nat :=
  if l.isEmpty then none
  else if l.all isDigitByte then some (decValue l) else none

/-- A nonnegative `ParseInt(_, 10, 64)` result with the int64 range check. -/
def parseIntPos (l : List Nat) : Option Int :=
  match parseDecDigits l with
  | none => none
  | some n => if n ≤ 9223372036854775807 then some (n : Int) else none

/-- A negated `ParseInt(_, 10, 64)` result with the int64 range check. -/
def parseIntNeg (l : List Nat) : Option Int :=
  match parseDecDigits l with
  | none => none
  | some n => if n ≤ 9223372036854775808 then some (-(n : Int)) else none

/-- `strconv.ParseInt(s, 10, 64)`: optional sign byte (`+` = 43, `-` = 45),
then decimal digits, with the int64 overflow check. -/
def parseInt64 : List Nat → Option Int
  | [] => none
  | c :: rest =>
    if c = 43 then parseIntPos rest
    else if c = 45 then parseIntNeg rest
    else parseIntPos (c :: rest)

/-- Decimal digit bytes of a positive `Nat`, most significant first; `fuel`
bounds the recursion (any `fuel ≥ n` gives the digits of `n`). -/
def natDecAux : Nat → Nat → List Nat
  | 0, _ => []
  | fuel + 1, n => if n = 0 then [] else natDecAux fuel (n / 10) ++ [n % 10 + 48]

/-- Decimal digit bytes of a `Nat` (`fmt` `%d` for an unsigned value). -/
def natDec (n : Nat) : List Nat := if n = 0 then [48] else natDecAux n n

/-- `fmt.Sprintf("%d", i)` for an `int64` as a byte list. -/
def intDec (i : Int) : List Nat :=
  if i < 0 then 45 :: natDec i.natAbs else natDec i.toNat

/-- The value of one hex digit byte, both cases (`encoding/hex`). -/
def hexDigitVal (c : Nat) : Option Nat :=
  if 48 ≤ c ∧ c ≤ 57 then some (c - 48)
  else if 97 ≤ c ∧ c ≤ 102 then some (c - 87)
  else if 65 ≤ c ∧ c ≤ 70 then some (c - 55)
  else none

/-- `hex.DecodeString`: an even number of hex digit bytes, two per output
byte; anything else is an error. -/
def hexDecode : List Nat → Option (List Nat)
  | [] => some []
  | [_] => none
  | c1 :: c2 :: rest =>
    match hexDigitVal c1, hexDigitVal c2, hexDecode rest with
    | some hi, some lo, some bs => some ((hi * 16 + lo) :: bs)
    | _, _, _ => none

/-- One lowercase hex digit byte. -/
def hexDigit (d : Nat) : Nat := if d < 10 then d + 48 else d + 87

/-- `hex.EncodeToString` over bytes, lowercase. -/
def hexEncode : List Nat → List Nat
  | [] => []
  | b :: rest => hexDigit (b / 16 % 16) :: hexDigit (b % 16) :: hexEncode rest

/-! ### SHA-256 and HMAC (`crypto/sha256`, `crypto/hmac`)

32-bit words are `Nat` values reduced with `% 4294967296` after every
arithmetic step, exactly as the uint32 arithmetic of the reference
implementation. -/

/-- Right rotation of a 32-bit word. -/
def rotr32 (n w : Nat) : Nat := ((w >>> n) ||| (w <<< (32 - n))) % 4294967296

/-- Bitwise complement of a 32-bit word. -/
def not32 (w : Nat) : Nat := w ^^^ 4294967295

def sha256Ch (e f g : Nat) : Nat := (e &&& f) ^^^ (not32 e &&& g)

def sha256Maj (a b c : Nat) : Nat := (a &&& b) ^^^ (a &&& c) ^^^ (b &&& c)

def bigSigma0 (a : Nat) : Nat := rotr32 2 a ^^^ rotr32 13 a ^^^ rotr32 22 a

def bigSigma1 (e : Nat) : Nat := rotr32 6 e ^^^ rotr32 11 e ^^^ rotr32 25 e

def smallSigma0 (x : Nat) : Nat := rotr32 7 x ^^^ rotr32 18 x ^^^ (x >>> 3)

def smallSigma1 (x : Nat) : Nat := rotr32 17 x ^^^ rotr32 19 x ^^^ (x >>> 10)

/-- The 64 SHA-256 round constants. -/
def sha256K : List Nat :=
  [1116352408, 1899447441, 3049323471, 3921009573, 961987163,
   1508970993, 2453635748, 2870763221, 3624381080, 310598401,
   607225278, 1426881987, 1925078388, 2162078206, 2614888103,
   3248222580, 3835390401, 4022224774, 264347078, 604807628,
   770255983, 1249150122, 1555081692, 1996064986, 2554220882,
   2821834349, 2952996808, 3210313671, 3336571891, 3584528711,
   113926993, 338241895, 666307205, 773529912, 1294757372,
   1396182291, 1695183700, 1986661051, 2177026350, 2456956037,
   2730485921, 2820302411, 3259730800, 3345764771, 3516065817,
   3600352804, 4094571909, 275423344, 430227734, 506948616,
   659060556, 883997877, 958139571, 1322822218, 1537002063,
   1747873779, 1955562222, 2024104815, 2227730452, 2361852424,
   2428436474, 2756734187, 3204031479, 3329325298]

/-- The SHA-256 working state, words a–h. -/
structure Sha256State where
  a : Nat
  b : Nat
  c : Nat
  d : Nat
  e : Nat
  f : Nat
  g : Nat
  h : Nat
deriving DecidableEq

/-- The SHA-256 initial hash value. -/
def sha256InitState : Sha256State :=
  ⟨1779033703, 3144134277, 1013904242, 2773480762,
   1359893119, 2600822924, 528734635, 1541459225⟩

/-- One SHA-256 round, fed the round constant and the schedule word. -/
def sha256Round (st : Sha256State) (kw : Nat × Nat) : Sha256State :=
  let t1 := (st.h + bigSigma1 st.e + sha256Ch st.e st.f st.g + kw.1 + kw.2) % 4294967296
  let t2 := (bigSigma0 st.a + sha256Maj st.a st.b st.c) % 4294967296
  ⟨(t1 + t2) % 4294967296, st.a, st.b, st.c, (st.d + t1) % 4294967296, st.e, st.f, st.g⟩

/-- Extend a 16-word block by `k` message-schedule words. -/
def extendWords : Nat → List Nat → List Nat
  | 0, ws => ws
  | k + 1, ws =>
    let t := ws.length
    let w := (smallSigma1 (ws.getD (t - 2) 0) + ws.getD (t - 7) 0 +
              smallSigma0 (ws.getD (t - 15) 0) + ws.getD (t - 16) 0) % 4294967296
    extendWords k (ws ++ [w])

/-- Compress one 16-word block into the running state. -/
def sha256Compress (st : Sha256State) (block : List Nat) : Sha256State :=
  let ws := extendWords 48 block
  let r := (sha256K.zip ws).foldl sha256Round st
  ⟨(st.a + r.a) % 4294967296, (st.b + r.b) % 4294967296,
   (st.c + r.c) % 4294967296, (st.d + r.d) % 4294967296,
   (st.e + r.e) % 4294967296, (st.f + r.f) % 4294967296,
   (st.g + r.g) % 4294967296, (st.h + r.h) % 4294967296⟩

/-- Big-endian bytes of a 32-bit word. -/
def wordToBytes (w : Nat) : List Nat :=
  [w / 16777216 % 256, w / 65536 % 256, w / 256 % 256, w % 256]

/-- Big-endian 8-byte encoding of the 64-bit message bit length. -/
def lenToBytes64 (n : Nat) : List Nat :=
  [n / 72057594037927936 % 256, n / 281474976710656 % 256,
   n / 1099511627776 % 256, n / 4294967296 % 256,
   n / 16777216 % 256, n / 65536 % 256, n / 256 % 256, n % 256]

/-- Big-endian 32-bit words of a byte list (groups of four). -/
def bytesToWords : List Nat → List Nat
  | b1 :: b2 :: b3 :: b4 :: rest =>
    (((b1 * 256 + b2) * 256 + b3) * 256 + b4) :: bytesToWords rest
  | _ => []

/-- Split a word list into 16-word blocks; `fuel` bounds the recursion (the
word count is always enough fuel). -/
def chunk16 : Nat → List Nat → List (List Nat)
  | 0, _ => []
  | _, [] => []
  | fuel + 1, ws => ws.take 16 :: chunk16 fuel (ws.drop 16)

/-- SHA-256 of a byte list: pad to a 64-byte multiple with `0x80`, zeros and
the 64-bit bit length, then compress block by block. -/
def sha256 (msg : List Nat) : List Nat :=
  let padded := msg ++ [128] ++ List.replicate ((119 - msg.length % 64) % 64) 0 ++
    lenToBytes64 (msg.length * 8)
  let ws := bytesToWords padded
  let final := (chunk16 ws.length ws).foldl sha256Compress sha256InitState
  wordToBytes final.a ++ wordToBytes final.b ++ wordToBytes final.c ++
  wordToBytes final.d ++ wordToBytes final.e ++ wordToBytes final.f ++
  wordToBytes final.g ++ wordToBytes final.h

/-- `hmac.New(sha256.New, key)` applied to `msg`: a key longer than the
64-byte block is hashed first, the key is zero-padded to the block size, and
the nested hashes use the `0x36`/`0x5c` pads. -/
def hmacSHA256 (key msg : List Nat) : List Nat :=
  let k0 := if 64 < key.length then sha256 key else key
  let kp := k0 ++ List.replicate (64 - k0.length) 0
  sha256 ((kp.map (fun b => b ^^^ 92)) ++ sha256 ((kp.map (fun b => b ^^^ 54)) ++ msg))

namespace uac

/-- The three error values of `internal/uac/events.go`:
`ErrNotSigned`, `ErrInvalidHeader`, `ErrNoValidSignature`. -/
inductive SigError where
  | notSigned
  | invalidHeader
  | noValidSignature
deriving DecidableEq

/-- `internal/uac.signedHeader`.  The timestamp is the `int64` the verifier
feeds into `computeSignature` via `t.Unix()`. -/
structure signedHeader where
  timestamp : Int
  signature : List Nat
deriving DecidableEq

/-- `t.Unix()` of Go's zero `time.Time{}` — the timestamp of a freshly
allocated `signedHeader` before any `t=` pair is parsed. -/
def goZeroTimeUnix : Int := -62135596800

/-- The byte list of the key `"t"`. -/
def tKey : List Nat := [116]

/-- The byte list of `signingVersion = "v1"`. -/
def v1Key : List Nat := [118, 49]

/-- The `for _, pair := range pairs` loop of `parseSignatureHeader`: each
`key=value` pair must split into exactly two parts; `t` values parse as
decimal `int64`; an undecodable-hex or unrecognized versioned value is
skipped, not rejected. -/
def parsePairs (sh : signedHeader) : List (List Nat) → Except SigError signedHeader
  | [] => .ok sh
  | pair :: rest =>
    match splitOnByte 61 pair with
    | [k, v] =>
      if k = tKey then
        match parseInt64 v with
        | none => .error SigError.invalidHeader
        | some ts => parsePairs { sh with timestamp := ts } rest
      else if k = v1Key then
        match hexDecode v with
        | none => parsePairs sh rest  -- continue: bad hex is skipped
        | some sig => parsePairs { sh with signature := sig } rest
      else
        parsePairs sh rest  -- unrecognized key: skipped
    | _ => .error SigError.invalidHeader

/-- `internal/uac.parseSignatureHeader`: empty header → `ErrNotSigned`;
otherwise split on `','` (byte 44) and run the pair loop; a run that ends
with no signature bytes → `ErrNoValidSignature`. -/
def parseSignatureHeader (header : List Nat) : Except SigError signedHeader :=
  if header = [] then .error SigError.notSigned
  else
    match parsePairs ⟨goZeroTimeUnix, []⟩ (splitOnByte 44 header) with
    | .error e => .error e
    | .ok sh =>
      if sh.signature = [] then .error SigError.noValidSignature else .ok sh

/-- `internal/uac.computeSignature`:
`HMAC-SHA256(secret, "<timestamp decimal>" ++ "." ++ payload)`. -/
def computeSignature (t : Int) (payload : List Nat) (secret : List Nat) : List Nat :=
  hmacSHA256 secret (intDec t ++ [46] ++ payload)

/-- `internal/uac.validatePayload`: parse the header, recompute the digest
and compare (`hmac.Equal` is plain constant-time byte equality); a mismatch
is `ErrNoValidSignature`. -/
def validatePayload (payload sigHeader secret : List Nat) : Except SigError Unit :=
  match parseSignatureHeader sigHeader with
  | .error e => .error e
  | .ok header =>
    if computeSignature header.timestamp payload secret = header.signature then .ok ()
    else .error SigError.noValidSignature

/-- The well-formed signature header `t=<T>,v1=<hex sig>` of the spec's
signing scheme, as a byte list (`116 61` = `"t="`, `44 118 49 61` = `",v1="`). -/
def buildHeader (t : Int) (sig : List Nat) : List Nat :=
  [116, 61] ++ intDec t ++ [44, 118, 49, 61] ++ hexEncode sig

end uac

/-! ## Theorems -/

set_option maxRecDepth 4000

/-- **C1.**  For every Access-Controller door-unlock event whose reported
actor identity equals the middleware's own identity (actor type `open-api`
and actor name `unifi-access-hubitat-middleware`), `handleUacEvent` returns
without issuing any outbound hub command; likewise it issues none when the
event's result field differs from `"Access Granted"`. -/
theorem c1_unlock_guard_drops (doors : List config.Door) (evt : WebhookEvent)
    (p : UnlockPayload) (hevt : evt.event = "access.door.unlock")
    (hdata : evt.unlockData = some p)
    (hdrop : (p.actorType = "open-api" ∧ p.actorName = "unifi-access-hubitat-middleware")
      ∨ p.result ≠ "Access Granted") :
    handleUacEvent doors evt = [] := by
  obtain ⟨ev, ud, dd⟩ := evt
  dsimp only at hevt hdata
  subst hevt
  subst hdata
  show handleUacEvent doors ⟨"access.door.unlock", some p, dd⟩ = []
  unfold handleUacEvent
  rw [if_pos rfl]
  dsimp only
  by_cases hA : p.actorType = "open-api" ∧ p.actorName = "unifi-access-hubitat-middleware"
  · rw [if_pos hA]
  · rw [if_neg hA]
    rcases hdrop with h | h
    · exact absurd h hA
    · rw [if_pos h]

/-- Witness for C1 at a concrete event triggered by the middleware's own
actor identity. -/
theorem c1_unlock_guard_drops_witness :
    handleUacEvent [⟨"d1", "c1", none, "s1"⟩]
      ⟨"access.door.unlock",
       some ⟨"d1", "unifi-access-hubitat-middleware", "open-api", "Access Granted"⟩,
       none⟩ = [] :=
  c1_unlock_guard_drops _ _ _ rfl rfl (Or.inl (by exact ⟨rfl, rfl⟩))

/-- **C4.**  For every door-position-status event, `handleUacEvent` drops the
event unless the sub-event type equals `dps_change`; otherwise, after
resolving the door by controller ID, it asserts the mapped contact device
opened when the reported status is `"open"` and closed when it is `"close"`,
and any other status value is dropped with no outbound call. -/
theorem c4_dps_routing (doors : List config.Door) (evt : WebhookEvent)
    (p : DpsPayload) (hevt : evt.event = "access.device.dps_status")
    (hdata : evt.dpsData = some p) :
    (p.eventType ≠ "dps_change" → handleUacEvent doors evt = []) ∧
    (p.eventType = "dps_change" →
      handleUacEvent doors evt =
        match getDoorByUacID doors p.locationID with
        | none => []
        | some door =>
          if p.status = "open" then
            [HubAction.assertDoorContactOpened door.hubitatContactID]
          else if p.status = "close" then
            [HubAction.assertDoorContactClosed door.hubitatContactID]
          else []) := by
  obtain ⟨ev, ud, dd⟩ := evt
  dsimp only at hevt hdata
  subst hevt
  subst hdata
  have hne : ("access.device.dps_status" : String) ≠ "access.door.unlock" := by decide
  constructor
  · intro hdrop
    show handleUacEvent doors ⟨"access.device.dps_status", ud, some p⟩ = []
    unfold handleUacEvent
    rw [if_neg hne, if_pos rfl]
    dsimp only
    rw [if_pos hdrop]
  · intro hchange
    show handleUacEvent doors ⟨"access.device.dps_status", ud, some p⟩ = _
    unfold handleUacEvent
    rw [if_neg hne, if_pos rfl]
    dsimp only
    rw [if_neg (by simp [hchange])]

/-- Witness for C4: a concrete `dps_change` event asserts the mapped contact
opened; a concrete non-`dps_change` event is dropped. -/
theorem c4_dps_routing_witness :
    handleUacEvent [⟨"d1", "c1", none, "s1"⟩]
      ⟨"access.device.dps_status", none, some ⟨"d1", "dps_change", "open"⟩⟩ =
      [HubAction.assertDoorContactOpened "c1"] ∧
    handleUacEvent [⟨"d1", "c1", none, "s1"⟩]
      ⟨"access.device.dps_status", none, some ⟨"d1", "status_update", "open"⟩⟩ = [] := by
  constructor
  · have h := (c4_dps_routing [⟨"d1", "c1", none, "s1"⟩]
      ⟨"access.device.dps_status", none, some ⟨"d1", "dps_change", "open"⟩⟩
      ⟨"d1", "dps_change", "open"⟩ rfl rfl).2 rfl
    rw [h]
    decide
  · exact (c4_dps_routing [⟨"d1", "c1", none, "s1"⟩]
      ⟨"access.device.dps_status", none, some ⟨"d1", "status_update", "open"⟩⟩
      ⟨"d1", "status_update", "open"⟩ rfl rfl).1 (by decide)

/-- **C5 (code bug).**  The startup snapshot of `pollUacStates` does *not*
assert the contact position of every configured door in the fetched list:
a fetched door with no registry entry executes `return`, not `continue`,
abandoning the remaining doors and the whole polling goroutine.  First
conjunct: the registry door `d2` is never asserted when an unconfigured door
`d1` precedes it (the snapshot issues no action and control never reaches the
drift loop).  Second conjunct: the same fetched list with `d2` first shows
the assertion the claim expects for `d2` is otherwise issued. -/
theorem c5_startup_snapshot_return_bug :
    pollUacStatesStartup [⟨"d2", "c2", none, "s2"⟩]
      [⟨"d1", "open", ""⟩, ⟨"d2", "open", ""⟩] = ([], false) ∧
    pollUacStatesStartup [⟨"d2", "c2", none, "s2"⟩]
      [⟨"d2", "open", ""⟩, ⟨"d1", "open", ""⟩] =
      ([HubAction.assertDoorContactOpened "c2"], false) := by
  constructor <;> decide

/-- **C3.**  Every device-state assertion primitive issues at most one
outbound mutating command per invocation, and issues exactly zero — returning
success — when the freshly fetched current state already equals the desired
value: hub-side `assertDeviceState` when a fetched attribute named
`attributeName` already carries `desiredValue`, and controller-side
`AssertToggleDoorUnlock` / `AssertUnlockDoor` / `AssertLockDoor` when the
fetched relay status is `"unlock"` / the rule type is `"keep_unlock"` / the
rule type is empty. -/
theorem c3_assert_at_most_one_command :
    (∀ fetch sendOk deviceID capability command attributeName desiredValue,
      (hubitat.assertDeviceState fetch sendOk deviceID capability command
        attributeName desiredValue).2.length ≤ 1) ∧
    (∀ info sendOk deviceID capability command attributeName desiredValue,
      hubitat.hasCapability info capability = true →
      hubitat.hasCommand info command = true →
      info.attributes.any (fun attr =>
        hubitat.attrLookup attr "name" == some attributeName &&
        hubitat.attrLookup attr "currentValue" == some desiredValue) = true →
      hubitat.assertDeviceState (.ok info) sendOk deviceID capability command
        attributeName desiredValue = (.ok (), [])) ∧
    (∀ fetch putOk doorID, (uac.AssertToggleDoorUnlock fetch putOk doorID).2.length ≤ 1) ∧
    (∀ door putOk doorID, door.doorLockRelayStatus = "unlock" →
      uac.AssertToggleDoorUnlock (.ok door) putOk doorID = (.ok (), [])) ∧
    (∀ getRule putOk doorID, (uac.AssertUnlockDoor getRule putOk doorID).2.length ≤ 1) ∧
    (∀ rule putOk doorID, rule.type = "keep_unlock" →
      uac.AssertUnlockDoor (.ok rule) putOk doorID = (.ok (), [])) ∧
    (∀ getRule putOk doorID, (uac.AssertLockDoor getRule putOk doorID).2.length ≤ 1) ∧
    (∀ rule putOk doorID, rule.type = "" →
      uac.AssertLockDoor (.ok rule) putOk doorID = (.ok (), [])) := by
  refine ⟨?_, ?_, ?_, ?_, ?_, ?_, ?_, ?_⟩
  · intro fetch sendOk deviceID capability command attributeName desiredValue
    unfold hubitat.assertDeviceState
    rcases fetch with e | info
    · simp
    · dsimp only
      split
      · simp
      · split
        · simp
        · split
          · simp
          · simp
  · intro info sendOk deviceID capability command attributeName desiredValue hcap hcmd hattr
    simp [hubitat.assertDeviceState, hcap, hcmd, hattr]
  · intro fetch putOk doorID
    unfold uac.AssertToggleDoorUnlock
    rcases fetch with e | door
    · simp
    · dsimp only
      split <;> simp
  · intro door putOk doorID hrelay
    simp [uac.AssertToggleDoorUnlock, hrelay]
  · intro getRule putOk doorID
    unfold uac.AssertUnlockDoor
    rcases getRule with e | rule
    · simp
    · dsimp only
      split <;> simp
  · intro rule putOk doorID htype
    simp [uac.AssertUnlockDoor, htype]
  · intro getRule putOk doorID
    unfold uac.AssertLockDoor
    rcases getRule with e | rule
    · simp
    · dsimp only
      split <;> simp
  · intro rule putOk doorID htype
    simp [uac.AssertLockDoor, htype]

/-- Witness for C3: a concrete already-converged device and door issue zero
commands and return success. -/
theorem c3_assert_at_most_one_command_witness :
    hubitat.assertDeviceState
      (.ok ⟨[[("name", "switch"), ("currentValue", "on")]], ["Switch"], ["on", "off"]⟩)
      true "s1" "Switch" "on" "switch" "on" = (.ok (), []) ∧
    uac.AssertToggleDoorUnlock (.ok ⟨"d1", "open", "unlock"⟩) true "d1" = (.ok (), []) := by
  constructor
  · exact c3_assert_at_most_one_command.2.1 _ true "s1" "Switch" "on" "switch" "on"
      (by decide) (by decide) (by decide)
  · exact c3_assert_at_most_one_command.2.2.2.1 ⟨"d1", "open", "unlock"⟩ true "d1" rfl

/-- **C10.**  When the capability and command checks of `assertDeviceState`
pass but no fetched attribute entry is named `attributeName`, the command is
issued (the missing attribute counts as not-in-desired-state) and no
configuration error is returned: the result is success, or the
send-execution error when the outbound command itself fails. -/
theorem c10_missing_attribute_sends (info : hubitat.DeviceInfo) (sendOk : Bool)
    (deviceID capability command attributeName desiredValue : String)
    (hcap : hubitat.hasCapability info capability = true)
    (hcmd : hubitat.hasCommand info command = true)
    (hattr : ∀ attr ∈ info.attributes, hubitat.attrLookup attr "name" ≠ some attributeName) :
    hubitat.assertDeviceState (.ok info) sendOk deviceID capability command
      attributeName desiredValue =
      ((if sendOk then .ok ()
        else .error ("failed to send " ++ command ++ " command to device " ++ deviceID)),
       [(deviceID, command)]) := by
  have hany : (info.attributes.any (fun attr =>
      hubitat.attrLookup attr "name" == some attributeName &&
      hubitat.attrLookup attr "currentValue" == some desiredValue)) = false := by
    rw [List.any_eq_false]
    intro attr hmem
    simp only [Bool.and_eq_true, beq_iff_eq, not_and]
    intro h1
    exact absurd h1 (hattr attr hmem)
  simp [hubitat.assertDeviceState, hcap, hcmd, hany]

/-- Witness for C10: a concrete device whose attribute list lacks the target
attribute name gets the command and a success result. -/
theorem c10_missing_attribute_sends_witness :
    hubitat.assertDeviceState
      (.ok ⟨[[("name", "lock")]], ["Switch"], ["on"]⟩) true "s1" "Switch" "on" "switch" "on" =
      (.ok (), [("s1", "on")]) := by
  have h := c10_missing_attribute_sends ⟨[[("name", "lock")]], ["Switch"], ["on"]⟩ true
    "s1" "Switch" "on" "switch" "on" (by decide) (by decide) (by decide)
  simpa using h

/-- The first loop of `StringSlicesEqual` computes occurrence counts:
after folding `a` into the map, the entry of `k` grew by `a.count k`. -/
theorem incCounts_apply (a : List String) (m : String → Int) (k : String) :
    utils.incCounts m a k = m k + a.count k := by
  induction a generalizing m with
  | nil => simp [utils.incCounts]
  | cons v rest ih =>
    rw [utils.incCounts, ih, List.count_cons]
    by_cases h : k = v
    · subst h
      simp
      omega
    · have hb : (k == v) = false := by simpa using h
      simp [h, hb]
      exact fun hvk => h hvk.symm

/-- The second loop of `StringSlicesEqual` succeeds exactly when no element
of `b` occurs more often in `b` than its entry in the count map allows. -/
theorem decCounts_true_iff (b : List String) (m : String → Int) :
    utils.decCounts m b = true ↔ ∀ k ∈ b, (b.count k : Int) ≤ m k := by
  induction b generalizing m with
  | nil => simp [utils.decCounts]
  | cons v rest ih =>
    rw [utils.decCounts]
    have hv : ((fun k => if k = v then m k - 1 else m k) v) = m v - 1 := by simp
    rw [hv]
    by_cases hneg : m v - 1 < 0
    · rw [if_pos hneg]
      refine iff_of_false (by simp) ?_
      intro hall
      have := hall v (List.mem_cons_self v rest)
      rw [List.count_cons_self] at this
      push_cast at this
      omega
    · rw [if_neg hneg, ih]
      constructor
      · intro h k hk
        by_cases hkv : k = v
        · subst hkv
          rw [List.count_cons_self]
          by_cases hmem : k ∈ rest
          · have := h k hmem
            rw [if_pos rfl] at this
            push_cast
            omega
          · rw [List.count_eq_zero_of_not_mem hmem]
            push_cast
            omega
        · have hkmem : k ∈ rest := by
            rcases List.mem_cons.mp hk with h1 | h1
            · exact absurd h1 hkv
            · exact h1
          have := h k hkmem
          rw [if_neg hkv] at this
          rwa [List.count_cons_of_ne (by simpa using hkv)]
      · intro h k hk
        by_cases hkv : k = v
        · subst hkv
          rw [if_pos rfl]
          have := h k (List.mem_cons_self k rest)
          rw [List.count_cons_self] at this
          push_cast at this ⊢
          omega
        · rw [if_neg hkv]
          have := h k (List.mem_cons_of_mem v hk)
          rwa [List.count_cons_of_ne (by simpa using hkv)] at this

/-- `StringSlicesEqual` decides permutation equivalence. -/
theorem stringSlicesEqual_iff_perm (a b : List String) :
    utils.StringSlicesEqual a b = true ↔ a.Perm b := by
  unfold utils.StringSlicesEqual
  by_cases hlen : a.length = b.length
  · rw [if_neg (by simpa using hlen), decCounts_true_iff]
    constructor
    · intro h
      have hcount : ∀ k, b.count k ≤ a.count k := by
        intro k
        by_cases hk : k ∈ b
        · have := h k hk
          rw [incCounts_apply] at this
          have h2 : (b.count k : Int) ≤ (a.count k : Int) := by simpa using this
          exact_mod_cast h2
        · rw [List.count_eq_zero_of_not_mem hk]
          exact Nat.zero_le _
      have hle : (↑b : Multiset String) ≤ (↑a : Multiset String) := by
        rw [Multiset.le_iff_count]
        intro k
        simpa using hcount k
      have hcard : Multiset.card (↑a : Multiset String) ≤ Multiset.card (↑b : Multiset String) := by
        simpa using Nat.le_of_eq hlen
      have := Multiset.eq_of_le_of_card_le hle hcard
      exact (Multiset.coe_eq_coe).mp this.symm
    · intro hperm k hk
      rw [incCounts_apply, hperm.count_eq]
      simp
  · rw [if_pos (by simpa using hlen)]
    exact iff_of_false (by simp) (fun hperm => hlen hperm.length_eq)

/-- **C7.**  `StringSlicesEqual` is multiset-based and order-independent:
it returns `true` exactly when its arguments are permutations of each other,
it is symmetric, `["a","b"]` equals `["b","a"]`, and `["a","a","b"]` does not
equal `["a","b"]`. -/
theorem c7_string_slices_equal_multiset (a b : List String) :
    (utils.StringSlicesEqual a b = true ↔ a.Perm b) ∧
    utils.StringSlicesEqual a b = utils.StringSlicesEqual b a ∧
    utils.StringSlicesEqual ["a", "b"] ["b", "a"] = true ∧
    utils.StringSlicesEqual ["a", "a", "b"] ["a", "b"] = false := by
  refine ⟨stringSlicesEqual_iff_perm a b, ?_, by decide, by decide⟩
  by_cases h : a.Perm b
  · rw [(stringSlicesEqual_iff_perm a b).mpr h, (stringSlicesEqual_iff_perm b a).mpr h.symm]
  · have h1 : utils.StringSlicesEqual a b = false :=
      Bool.eq_false_iff.mpr (fun hc => h ((stringSlicesEqual_iff_perm a b).mp hc))
    have h2 : utils.StringSlicesEqual b a = false :=
      Bool.eq_false_iff.mpr (fun hc => h ((stringSlicesEqual_iff_perm b a).mp hc).symm)
    rw [h1, h2]

/-- Writing a key then reading it back. -/
theorem lookup_setState_self (l : List (String × String)) (k v : String) :
    lookupState (setState l k v) k = v := by
  induction l with
  | nil => simp [setState, lookupState]
  | cons p rest ih =>
    obtain ⟨k', v'⟩ := p
    by_cases h : k' = k
    · simp [setState, h, lookupState]
    · simp [setState, h, lookupState, ih]

/-- Writing one key leaves every other key's value unchanged. -/
theorem lookup_setState_ne (l : List (String × String)) (k v k' : String)
    (h : k' ≠ k) :
    lookupState (setState l k v) k' = lookupState l k' := by
  have h2 : k ≠ k' := fun hEq => h hEq.symm
  induction l with
  | nil => simp [setState, lookupState, h2]
  | cons p rest ih =>
    obtain ⟨k0, v0⟩ := p
    by_cases h0 : k0 = k
    · subst h0
      simp [setState, lookupState, h2]
    · simp only [setState, if_neg h0, lookupState]
      by_cases h1 : k0 = k'
      · rw [if_pos h1, if_pos h1]
      · rw [if_neg h1, if_neg h1, ih]

/-- `lockCallsFor` distributes over append. -/
theorem lockCallsFor_append (L : String) (xs ys : List HubAction) :
    lockCallsFor L (xs ++ ys) = lockCallsFor L xs + lockCallsFor L ys := by
  simp [lockCallsFor, List.filter_append]

/-- A translated lock-rule state is `"unlocked"` or `"locked"`. -/
theorem lockRuleState_cases (rt curr : String) (h : lockRuleState rt = some curr) :
    curr = "unlocked" ∨ curr = "locked" := by
  unfold lockRuleState at h
  by_cases h1 : rt = "keep_unlock"
  · rw [if_pos h1] at h
    exact Or.inl (Option.some_injective _ h).symm
  · rw [if_neg h1] at h
    by_cases h2 : rt = ""
    · rw [if_pos h2] at h
      exact Or.inr (Option.some_injective _ h).symm
    · rw [if_neg h2] at h
      cases h

/-- The drift-loop body leaves every other door's recorded state alone. -/
theorem step_states_ne (getRule : String → Option uac.DoorLockRule)
    (hubErr : String → Bool) (acc : TickAcc) (door : config.Door) (k : String)
    (h : k ≠ door.uacID) :
    lookupState (pollDoorStep getRule hubErr acc door).states k =
      lookupState acc.states k := by
  cases hl : door.hubitatLockID with
  | none => simp [pollDoorStep, hl]
  | some lockID =>
    cases hr : getRule door.uacID with
    | none => simp [pollDoorStep, hl, hr]
    | some rule =>
      cases hs : lockRuleState rule.type with
      | none => simp [pollDoorStep, hl, hr, hs]
      | some curr =>
        simp only [pollDoorStep, hl, hr, hs]
        by_cases hc : curr = lookupState acc.states door.uacID
        · rw [if_pos hc]
        · rw [if_neg hc]
          exact lookup_setState_ne _ _ _ _ h

/-- The drift-loop body adds no assert call for a lock device the door does
not own. -/
theorem step_calls_ne (getRule : String → Option uac.DoorLockRule)
    (hubErr : String → Bool) (acc : TickAcc) (door : config.Door) (L : String)
    (h : door.hubitatLockID ≠ some L) :
    lockCallsFor L (pollDoorStep getRule hubErr acc door).calls =
      lockCallsFor L acc.calls := by
  cases hl : door.hubitatLockID with
  | none => simp [pollDoorStep, hl]
  | some lockID =>
    have hne : lockID ≠ L := fun hEq => h (by rw [hl, hEq])
    cases hr : getRule door.uacID with
    | none => simp [pollDoorStep, hl, hr]
    | some rule =>
      cases hs : lockRuleState rule.type with
      | none => simp [pollDoorStep, hl, hr, hs]
      | some curr =>
        simp only [pollDoorStep, hl, hr, hs]
        by_cases hc : curr = lookupState acc.states door.uacID
        · rw [if_pos hc]
        · rw [if_neg hc]
          dsimp only
          rw [lockCallsFor_append]
          have hz : lockCallsFor L
              (if curr = "locked" then [HubAction.assertDoorLockLocked lockID]
               else if curr = "unlocked" then [HubAction.assertDoorLockUnlocked lockID]
               else []) = 0 := by
            by_cases h1 : curr = "locked"
            · rw [if_pos h1]
              simp [lockCallsFor, hne]
            · rw [if_neg h1]
              by_cases h2 : curr = "unlocked"
              · rw [if_pos h2]
                simp [lockCallsFor, hne]
              · rw [if_neg h2]
                simp [lockCallsFor]
          rw [hz]
          omega

/-- The drift-loop body only appends to the log. -/
theorem step_logs_mono (getRule : String → Option uac.DoorLockRule)
    (hubErr : String → Bool) (acc : TickAcc) (door : config.Door) (e : PollLog)
    (h : e ∈ acc.logs) :
    e ∈ (pollDoorStep getRule hubErr acc door).logs := by
  cases hl : door.hubitatLockID with
  | none => simpa [pollDoorStep, hl] using h
  | some lockID =>
    cases hr : getRule door.uacID with
    | none => simp [pollDoorStep, hl, hr, h]
    | some rule =>
      cases hs : lockRuleState rule.type with
      | none => simp [pollDoorStep, hl, hr, hs, h]
      | some curr =>
        simp only [pollDoorStep, hl, hr, hs]
        by_cases hc : curr = lookupState acc.states door.uacID
        · rw [if_pos hc]
          exact h
        · rw [if_neg hc]
          exact List.mem_append_left _ h

/-- The full behaviour of the drift-loop body on its own door, once the lock
device is configured and the polled rule translates. -/
theorem step_self (getRule : String → Option uac.DoorLockRule)
    (hubErr : String → Bool) (acc : TickAcc) (door : config.Door) (L : String)
    (rule : uac.DoorLockRule) (curr : String)
    (hlock : door.hubitatLockID = some L)
    (hrule : getRule door.uacID = some rule)
    (hcurr : lockRuleState rule.type = some curr) :
    (curr = lookupState acc.states door.uacID →
      pollDoorStep getRule hubErr acc door = acc) ∧
    (curr ≠ lookupState acc.states door.uacID →
      (pollDoorStep getRule hubErr acc door).states =
        setState acc.states door.uacID curr ∧
      (pollDoorStep getRule hubErr acc door).calls = acc.calls ++
        (if curr = "locked" then [HubAction.assertDoorLockLocked L]
         else if curr = "unlocked" then [HubAction.assertDoorLockUnlocked L]
         else []) ∧
      (pollDoorStep getRule hubErr acc door).logs = acc.logs ++
        (if hubErr L then [PollLog.assertFailed door.uacID] else [])) := by
  constructor
  · intro hc
    simp only [pollDoorStep, hlock, hrule, hcurr]
    rw [if_pos hc]
  · intro hc
    simp only [pollDoorStep, hlock, hrule, hcurr]
    rw [if_neg hc]
    exact ⟨rfl, rfl, rfl⟩

/-- The drift-loop body leaves the door's record alone when the polled rule
does not translate (unknown rule type). -/
theorem step_self_skip (getRule : String → Option uac.DoorLockRule)
    (hubErr : String → Bool) (acc : TickAcc) (door : config.Door) (L : String)
    (rule : uac.DoorLockRule)
    (hlock : door.hubitatLockID = some L)
    (hrule : getRule door.uacID = some rule)
    (hcurr : lockRuleState rule.type = none) :
    (pollDoorStep getRule hubErr acc door).states = acc.states := by
  simp [pollDoorStep, hlock, hrule, hcurr]

/-- Folding the drift-loop body over doors with other controller IDs leaves a
key's recorded state unchanged. -/
theorem fold_states_ne (doors : List config.Door)
    (getRule : String → Option uac.DoorLockRule) (hubErr : String → Bool)
    (acc : TickAcc) (k : String) (h : ∀ d ∈ doors, k ≠ d.uacID) :
    lookupState ((doors.foldl (pollDoorStep getRule hubErr) acc).states) k =
      lookupState acc.states k := by
  induction doors generalizing acc with
  | nil => rfl
  | cons d0 rest ih =>
    rw [List.foldl_cons, ih _ (fun d' hd' => h d' (List.mem_cons_of_mem d0 hd'))]
    exact step_states_ne _ _ _ _ _ (h d0 (List.mem_cons_self d0 rest))

/-- Folding the drift-loop body over doors that do not own lock device `L`
adds no assert call for `L`. -/
theorem fold_calls_ne (doors : List config.Door)
    (getRule : String → Option uac.DoorLockRule) (hubErr : String → Bool)
    (acc : TickAcc) (L : String) (h : ∀ d ∈ doors, d.hubitatLockID ≠ some L) :
    lockCallsFor L ((doors.foldl (pollDoorStep getRule hubErr) acc).calls) =
      lockCallsFor L acc.calls := by
  induction doors generalizing acc with
  | nil => rfl
  | cons d0 rest ih =>
    rw [List.foldl_cons, ih _ (fun d' hd' => h d' (List.mem_cons_of_mem d0 hd'))]
    exact step_calls_ne _ _ _ _ _ (h d0 (List.mem_cons_self d0 rest))

/-- Folding the drift-loop body only appends to the log. -/
theorem fold_logs_mono (doors : List config.Door)
    (getRule : String → Option uac.DoorLockRule) (hubErr : String → Bool)
    (acc : TickAcc) (e : PollLog) (h : e ∈ acc.logs) :
    e ∈ ((doors.foldl (pollDoorStep getRule hubErr) acc).logs) := by
  induction doors generalizing acc with
  | nil => exact h
  | cons d0 rest ih =>
    rw [List.foldl_cons]
    exact ih _ (step_logs_mono _ _ _ _ _ h)

/-- Uniqueness facts of a registry head: its controller ID and lock device do
not reappear in the tail. -/
theorem registry_head_facts (d0 : config.Door) (rest : List config.Door)
    (huacN : (((d0 :: rest).map config.Door.uacID)).Nodup)
    (hlockN : (((d0 :: rest).filterMap config.Door.hubitatLockID)).Nodup) :
    (rest.map config.Door.uacID).Nodup ∧
    (rest.filterMap config.Door.hubitatLockID).Nodup ∧
    (∀ d ∈ rest, d0.uacID ≠ d.uacID) ∧
    (∀ L, d0.hubitatLockID = some L → ∀ d ∈ rest, d.hubitatLockID ≠ some L) := by
  rw [List.map_cons, List.nodup_cons] at huacN
  refine ⟨huacN.2, ?_, ?_, ?_⟩
  · rw [List.filterMap_cons] at hlockN
    cases hl : d0.hubitatLockID with
    | none => rwa [hl] at hlockN
    | some l =>
      rw [hl] at hlockN
      exact (List.nodup_cons.mp hlockN).2
  · intro d hd hEq
    exact huacN.1 (hEq ▸ List.mem_map.mpr ⟨d, hd, rfl⟩)
  · intro L hL d hd hEq
    rw [List.filterMap_cons, hL] at hlockN
    exact (List.nodup_cons.mp hlockN).1 (List.mem_filterMap.mpr ⟨d, hd, hEq⟩)

/-- Assert-call count of one drift tick for the lock device of a configured
door whose polled rule translates: one call when the recorded observation
differs from the translated state, none when it matches. -/
theorem tick_fold_calls (doors : List config.Door)
    (getRule : String → Option uac.DoorLockRule) (hubErr : String → Bool)
    (acc : TickAcc) (d : config.Door) (L : String) (rule : uac.DoorLockRule)
    (curr : String) (hmem : d ∈ doors)
    (huacN : (doors.map config.Door.uacID).Nodup)
    (hlockN : (doors.filterMap config.Door.hubitatLockID).Nodup)
    (hlock : d.hubitatLockID = some L)
    (hrule : getRule d.uacID = some rule)
    (hcurr : lockRuleState rule.type = some curr) :
    lockCallsFor L ((doors.foldl (pollDoorStep getRule hubErr) acc).calls) =
      lockCallsFor L acc.calls +
        (if curr = lookupState acc.states d.uacID then 0 else 1) := by
  induction doors generalizing acc with
  | nil => cases hmem
  | cons d0 rest ih =>
    obtain ⟨huacN', hlockN', hne_uac, hne_lock⟩ := registry_head_facts d0 rest huacN hlockN
    rw [List.foldl_cons]
    rcases List.mem_cons.mp hmem with heq | hmemr
    · subst heq
      rw [fold_calls_ne rest _ _ _ _ (hne_lock L hlock)]
      by_cases hc : curr = lookupState acc.states d.uacID
      · rw [(step_self getRule hubErr acc d L rule curr hlock hrule hcurr).1 hc,
          if_pos hc]
        omega
      · obtain ⟨_, hcalls, _⟩ :=
          (step_self getRule hubErr acc d L rule curr hlock hrule hcurr).2 hc
        rw [hcalls, lockCallsFor_append, if_neg hc]
        have hone : lockCallsFor L
            (if curr = "locked" then [HubAction.assertDoorLockLocked L]
             else if curr = "unlocked" then [HubAction.assertDoorLockUnlocked L]
             else []) = 1 := by
          rcases lockRuleState_cases _ _ hcurr with h1 | h1
          · rw [h1, if_neg (by decide), if_pos rfl]
            simp [lockCallsFor]
          · rw [h1, if_pos rfl]
            simp [lockCallsFor]
        rw [hone]
    · have hstep_states :
          lookupState (pollDoorStep getRule hubErr acc d0).states d.uacID =
            lookupState acc.states d.uacID :=
        step_states_ne _ _ _ _ _ (fun hEq => hne_uac d hmemr hEq.symm)
      have hstep_calls :
          lockCallsFor L (pollDoorStep getRule hubErr acc d0).calls =
            lockCallsFor L acc.calls := by
        refine step_calls_ne _ _ _ _ _ ?_
        intro hEq
        rcases List.mem_cons.mp hmem with h1 | h1
        · exact hne_uac d hmemr (h1 ▸ rfl)
        · exact hne_lock L hEq d hmemr hlock
      rw [ih _ hmemr huacN' hlockN', hstep_states, hstep_calls]

/-- After one drift tick the door's recorded observation equals the
translated state of its polled rule. -/
theorem tick_fold_states (doors : List config.Door)
    (getRule : String → Option uac.DoorLockRule) (hubErr : String → Bool)
    (acc : TickAcc) (d : config.Door) (L : String) (rule : uac.DoorLockRule)
    (curr : String) (hmem : d ∈ doors)
    (huacN : (doors.map config.Door.uacID).Nodup)
    (hlock : d.hubitatLockID = some L)
    (hrule : getRule d.uacID = some rule)
    (hcurr : lockRuleState rule.type = some curr) :
    lookupState ((doors.foldl (pollDoorStep getRule hubErr) acc).states) d.uacID =
      curr := by
  induction doors generalizing acc with
  | nil => cases hmem
  | cons d0 rest ih =>
    rw [List.map_cons, List.nodup_cons] at huacN
    rw [List.foldl_cons]
    rcases List.mem_cons.mp hmem with heq | hmemr
    · subst heq
      have hrest : ∀ d' ∈ rest, d.uacID ≠ d'.uacID := by
        intro d' hd' hEq
        exact huacN.1 (hEq ▸ List.mem_map.mpr ⟨d', hd', rfl⟩)
      rw [fold_states_ne rest _ _ _ _ hrest]
      by_cases hc : curr = lookupState acc.states d.uacID
      · rw [(step_self getRule hubErr acc d L rule curr hlock hrule hcurr).1 hc]
        exact hc.symm
      · obtain ⟨hstates, _, _⟩ :=
          (step_self getRule hubErr acc d L rule curr hlock hrule hcurr).2 hc
        rw [hstates, lookup_setState_self]
    · exact ih _ hmemr huacN.2

/-- A polled rule that does not translate (unknown type) leaves the door's
recorded observation unchanged across the tick. -/
theorem tick_fold_states_skip (doors : List config.Door)
    (getRule : String → Option uac.DoorLockRule) (hubErr : String → Bool)
    (acc : TickAcc) (d : config.Door) (L : String) (rule : uac.DoorLockRule)
    (hmem : d ∈ doors)
    (huacN : (doors.map config.Door.uacID).Nodup)
    (hlock : d.hubitatLockID = some L)
    (hrule : getRule d.uacID = some rule)
    (hcurr : lockRuleState rule.type = none) :
    lookupState ((doors.foldl (pollDoorStep getRule hubErr) acc).states) d.uacID =
      lookupState acc.states d.uacID := by
  induction doors generalizing acc with
  | nil => cases hmem
  | cons d0 rest ih =>
    rw [List.map_cons, List.nodup_cons] at huacN
    rw [List.foldl_cons]
    rcases List.mem_cons.mp hmem with heq | hmemr
    · subst heq
      have hrest : ∀ d' ∈ rest, d.uacID ≠ d'.uacID := by
        intro d' hd' hEq
        exact huacN.1 (hEq ▸ List.mem_map.mpr ⟨d', hd', rfl⟩)
      rw [fold_states_ne rest _ _ _ _ hrest,
        step_self_skip getRule hubErr acc d L rule hlock hrule hcurr]
    · rw [ih _ hmemr huacN.2,
        step_states_ne _ _ _ _ _ (fun hEq => (by
          exact huacN.1 (hEq ▸ List.mem_map.mpr ⟨d, hmemr, rfl⟩) : False).elim)]

/-- When the drift tick issues an assert for a door and the hub call fails,
the failure is logged. -/
theorem tick_fold_logs (doors : List config.Door)
    (getRule : String → Option uac.DoorLockRule) (hubErr : String → Bool)
    (acc : TickAcc) (d : config.Door) (L : String) (rule : uac.DoorLockRule)
    (curr : String) (hmem : d ∈ doors)
    (huacN : (doors.map config.Door.uacID).Nodup)
    (hlock : d.hubitatLockID = some L)
    (hrule : getRule d.uacID = some rule)
    (hcurr : lockRuleState rule.type = some curr)
    (hne : curr ≠ lookupState acc.states d.uacID)
    (herr : hubErr L = true) :
    PollLog.assertFailed d.uacID ∈
      (doors.foldl (pollDoorStep getRule hubErr) acc).logs := by
  induction doors generalizing acc with
  | nil => cases hmem
  | cons d0 rest ih =>
    rw [List.map_cons, List.nodup_cons] at huacN
    rw [List.foldl_cons]
    rcases List.mem_cons.mp hmem with heq | hmemr
    · subst heq
      obtain ⟨_, _, hlogs⟩ :=
        (step_self getRule hubErr acc d L rule curr hlock hrule hcurr).2 hne
      refine fold_logs_mono rest _ _ _ _ ?_
      rw [hlogs, herr]
      exact List.mem_append_right _ (List.mem_singleton_self _)
    · refine ih _ hmemr huacN.2 ?_
      rw [step_states_ne _ _ _ _ _ (fun hEq => (by
        exact huacN.1 (hEq ▸ List.mem_map.mpr ⟨d, hmemr, rfl⟩) : False).elim)]
      exact hne

/-- **C8.**  For a door with a configured lock device whose polled rule
translates: a tick that still holds the unset sentinel for the door issues
exactly one hub lock assertion for its lock device; a tick whose recorded
observation equals the translated state issues zero; and a rule type that
translates to neither state leaves the record unchanged. -/
theorem c8_first_tick_one_assert (doors : List config.Door)
    (getRule : String → Option uac.DoorLockRule) (hubErr : String → Bool)
    (states : List (String × String)) (d : config.Door) (L : String)
    (hmem : d ∈ doors)
    (huacN : (doors.map config.Door.uacID).Nodup)
    (hlockN : (doors.filterMap config.Door.hubitatLockID).Nodup)
    (hlock : d.hubitatLockID = some L) :
    (∀ rule curr, getRule d.uacID = some rule →
      lockRuleState rule.type = some curr →
      (lookupState states d.uacID = "" →
        lockCallsFor L (pollUacStatesTick doors getRule hubErr states).calls = 1) ∧
      (lookupState states d.uacID = curr →
        lockCallsFor L (pollUacStatesTick doors getRule hubErr states).calls = 0)) ∧
    (∀ rule, getRule d.uacID = some rule → lockRuleState rule.type = none →
      lookupState (pollUacStatesTick doors getRule hubErr states).states d.uacID =
        lookupState states d.uacID) := by
  constructor
  · intro rule curr hrule hcurr
    have h := tick_fold_calls doors getRule hubErr ⟨states, [], []⟩ d L rule curr
      hmem huacN hlockN hlock hrule hcurr
    constructor
    · intro hunset
      have hcne : curr ≠ "" := by
        rcases lockRuleState_cases _ _ hcurr with h1 | h1 <;> subst h1 <;> decide
      show lockCallsFor L
        ((doors.foldl (pollDoorStep getRule hubErr) ⟨states, [], []⟩).calls) = 1
      rw [h]
      show lockCallsFor L [] + (if curr = lookupState states d.uacID then 0 else 1) = 1
      rw [hunset, if_neg hcne]
      rfl
    · intro hset
      show lockCallsFor L
        ((doors.foldl (pollDoorStep getRule hubErr) ⟨states, [], []⟩).calls) = 0
      rw [h]
      show lockCallsFor L [] + (if curr = lookupState states d.uacID then 0 else 1) = 0
      rw [hset, if_pos rfl]
      rfl
  · intro rule hrule hcurr
    exact tick_fold_states_skip doors getRule hubErr ⟨states, [], []⟩ d L rule
      hmem huacN hlock hrule hcurr

/-- Witness for C8: one configured door, rule `keep_unlock`; the first tick
from the unset sentinel issues exactly one assert for the lock device, and a
tick whose record already reads `"unlocked"` issues zero. -/
theorem c8_first_tick_one_assert_witness :
    lockCallsFor "l1" (pollUacStatesTick [⟨"d1", "c1", some "l1", "s1"⟩]
      (fun _ => some ⟨"keep_unlock", 0⟩) (fun _ => false) []).calls = 1 ∧
    lockCallsFor "l1" (pollUacStatesTick [⟨"d1", "c1", some "l1", "s1"⟩]
      (fun _ => some ⟨"keep_unlock", 0⟩) (fun _ => false)
      [("d1", "unlocked")]).calls = 0 := by
  constructor
  · exact ((c8_first_tick_one_assert [⟨"d1", "c1", some "l1", "s1"⟩]
      (fun _ => some ⟨"keep_unlock", 0⟩) (fun _ => false) []
      ⟨"d1", "c1", some "l1", "s1"⟩ "l1" (by decide) (by decide) (by decide)
      rfl).1 ⟨"keep_unlock", 0⟩ "unlocked" rfl (by decide)).1 rfl
  · exact ((c8_first_tick_one_assert [⟨"d1", "c1", some "l1", "s1"⟩]
      (fun _ => some ⟨"keep_unlock", 0⟩) (fun _ => false) [("d1", "unlocked")]
      ⟨"d1", "c1", some "l1", "s1"⟩ "l1" (by decide) (by decide) (by decide)
      rfl).1 ⟨"keep_unlock", 0⟩ "unlocked" rfl (by decide)).2 (by decide)

/-- **C9.**  When a door's translated lock-rule state differs from its
recorded observation, the tick updates the record to the new state even when
the hub lock assertion fails (the failure is only logged); consequently any
later tick against an unchanged rule — whatever its hub outcomes — issues
zero assertions for that lock device and keeps the record. -/
theorem c9_record_updated_despite_error (doors : List config.Door)
    (getRule : String → Option uac.DoorLockRule) (hubErr : String → Bool)
    (states : List (String × String)) (d : config.Door) (L : String)
    (rule : uac.DoorLockRule) (curr : String)
    (hmem : d ∈ doors)
    (huacN : (doors.map config.Door.uacID).Nodup)
    (hlockN : (doors.filterMap config.Door.hubitatLockID).Nodup)
    (hlock : d.hubitatLockID = some L)
    (hrule : getRule d.uacID = some rule)
    (hcurr : lockRuleState rule.type = some curr)
    (hprev : lookupState states d.uacID ≠ curr)
    (herr : hubErr L = true) :
    lookupState (pollUacStatesTick doors getRule hubErr states).states d.uacID =
      curr ∧
    PollLog.assertFailed d.uacID ∈
      (pollUacStatesTick doors getRule hubErr states).logs ∧
    (∀ states2 hubErr2, lookupState states2 d.uacID = curr →
      lockCallsFor L (pollUacStatesTick doors getRule hubErr2 states2).calls = 0 ∧
      lookupState (pollUacStatesTick doors getRule hubErr2 states2).states d.uacID =
        curr) := by
  refine ⟨?_, ?_, ?_⟩
  · exact tick_fold_states doors getRule hubErr ⟨states, [], []⟩ d L rule curr
      hmem huacN hlock hrule hcurr
  · exact tick_fold_logs doors getRule hubErr ⟨states, [], []⟩ d L rule curr
      hmem huacN hlock hrule hcurr (fun hEq => hprev hEq.symm) herr
  · intro states2 hubErr2 hst2
    constructor
    · have h := tick_fold_calls doors getRule hubErr2 ⟨states2, [], []⟩ d L rule curr
        hmem huacN hlockN hlock hrule hcurr
      show lockCallsFor L
        ((doors.foldl (pollDoorStep getRule hubErr2) ⟨states2, [], []⟩).calls) = 0
      rw [h]
      show lockCallsFor L [] + (if curr = lookupState states2 d.uacID then 0 else 1) = 0
      rw [hst2, if_pos rfl]
      rfl
    · exact tick_fold_states doors getRule hubErr2 ⟨states2, [], []⟩ d L rule curr
        hmem huacN hlock hrule hcurr

/-- Witness for C9: a failing hub assert still flips the record to
`"locked"`, the failure is logged, and the next tick issues nothing. -/
theorem c9_record_updated_despite_error_witness :
    lookupState (pollUacStatesTick [⟨"d1", "c1", some "l1", "s1"⟩]
      (fun _ => some ⟨"", 0⟩) (fun _ => true) []).states "d1" = "locked" ∧
    PollLog.assertFailed "d1" ∈ (pollUacStatesTick [⟨"d1", "c1", some "l1", "s1"⟩]
      (fun _ => some ⟨"", 0⟩) (fun _ => true) []).logs ∧
    lockCallsFor "l1" (pollUacStatesTick [⟨"d1", "c1", some "l1", "s1"⟩]
      (fun _ => some ⟨"", 0⟩) (fun _ => true) [("d1", "locked")]).calls = 0 := by
  have h := c9_record_updated_despite_error [⟨"d1", "c1", some "l1", "s1"⟩]
    (fun _ => some ⟨"", 0⟩) (fun _ => true) [] ⟨"d1", "c1", some "l1", "s1"⟩ "l1"
    ⟨"", 0⟩ "locked" (by decide) (by decide) (by decide) rfl rfl (by decide)
    (by decide) rfl
  exact ⟨h.1, h.2.1, (h.2.2 [("d1", "locked")] (fun _ => true) (by decide)).1⟩

/-- A split is never the empty list of parts. -/
theorem splitOnByte_ne_nil (sep : Nat) (l : List Nat) : splitOnByte sep l ≠ [] := by
  cases l with
  | nil => simp [splitOnByte]
  | cons c rest =>
    rw [splitOnByte]
    split
    · simp
    · split <;> simp

/-- A list free of the separator is one part. -/
theorem splitOnByte_not_mem (sep : Nat) (l : List Nat) (h : sep ∉ l) :
    splitOnByte sep l = [l] := by
  induction l with
  | nil => rfl
  | cons c rest ih =>
    have hc : c ≠ sep := fun hEq => h (hEq ▸ List.mem_cons_self c rest)
    rw [splitOnByte, ih (fun hm => h (List.mem_cons_of_mem c hm))]
    simp [hc]

/-- Splitting at the first separator occurrence. -/
theorem splitOnByte_append (sep : Nat) (a b : List Nat) (h : sep ∉ a) :
    splitOnByte sep (a ++ sep :: b) = a :: splitOnByte sep b := by
  induction a with
  | nil =>
    show splitOnByte sep (sep :: b) = [] :: splitOnByte sep b
    rw [splitOnByte]
    rcases h' : splitOnByte sep b with _ | ⟨p, ps⟩
    · exact absurd h' (splitOnByte_ne_nil sep b)
    · simp
  | cons c rest ih =>
    have hc : c ≠ sep := fun hEq => h (hEq ▸ List.mem_cons_self c rest)
    have ih' := ih (fun hm => h (List.mem_cons_of_mem c hm))
    show splitOnByte sep (c :: (rest ++ sep :: b)) = (c :: rest) :: splitOnByte sep b
    rw [splitOnByte, ih']
    simp [hc]

/-- Every byte printed by `natDecAux` is a decimal digit byte. -/
theorem natDecAux_digits (fuel : Nat) : ∀ n, ∀ d ∈ natDecAux fuel n, 48 ≤ d ∧ d ≤ 57 := by
  induction fuel with
  | zero => intro n d hd; cases hd
  | succ f ih =>
    intro n d hd
    rw [natDecAux] at hd
    by_cases h0 : n = 0
    · rw [if_pos h0] at hd
      cases hd
    · rw [if_neg h0] at hd
      rcases List.mem_append.mp hd with h1 | h1
      · exact ih _ d h1
      · rw [List.mem_singleton] at h1
        subst h1
        have := Nat.mod_lt n (show 0 < 10 by norm_num)
        omega

/-- Value of the digits printed by `natDecAux`, with an arbitrary
accumulator. -/
theorem natDecAux_val (fuel : Nat) : ∀ n a, n ≤ fuel →
    (natDecAux fuel n).foldl (fun x d => x * 10 + (d - 48)) a =
      a * 10 ^ (natDecAux fuel n).length + n := by
  induction fuel with
  | zero =>
    intro n a h
    have h0 : n = 0 := Nat.le_zero.mp h
    subst h0
    simp [natDecAux]
  | succ f ih =>
    intro n a h
    rw [natDecAux]
    by_cases h0 : n = 0
    · rw [if_pos h0]
      subst h0
      simp
    · rw [if_neg h0]
      have hdiv : n / 10 ≤ f := by
        have := Nat.div_lt_self (Nat.pos_of_ne_zero h0) (show 1 < 10 by norm_num)
        omega
      rw [List.foldl_append, ih (n / 10) a hdiv]
      simp only [List.foldl_cons, List.foldl_nil, List.length_append,
        List.length_singleton]
      have hmod : n % 10 + 48 - 48 = n % 10 := by omega
      rw [hmod]
      calc (a * 10 ^ (natDecAux f (n / 10)).length + n / 10) * 10 + n % 10
          = a * (10 ^ (natDecAux f (n / 10)).length * 10) +
              (10 * (n / 10) + n % 10) := by ring
        _ = a * 10 ^ ((natDecAux f (n / 10)).length + 1) + n := by
            rw [pow_succ, Nat.div_add_mod]

/-- `natDec` prints at least one byte. -/
theorem natDec_ne_nil (n : Nat) : natDec n ≠ [] := by
  unfold natDec
  by_cases h0 : n = 0
  · rw [if_pos h0]
    simp
  · rw [if_neg h0]
    rcases n with _ | m
    · exact absurd rfl h0
    · rw [natDecAux, if_neg h0]
      simp

/-- `natDec` prints only decimal digit bytes. -/
theorem natDec_digits (n : Nat) : ∀ d ∈ natDec n, 48 ≤ d ∧ d ≤ 57 := by
  unfold natDec
  by_cases h0 : n = 0
  · rw [if_pos h0]
    intro d hd
    rw [List.mem_singleton] at hd
    omega
  · rw [if_neg h0]
    exact natDecAux_digits n n

/-- Parsing the printed digits of `n` gives back `n`. -/
theorem decValue_natDec (n : Nat) : decValue (natDec n) = n := by
  unfold natDec decValue
  by_cases h0 : n = 0
  · rw [if_pos h0]
    subst h0
    rfl
  · rw [if_neg h0]
    rw [natDecAux_val n n 0 (le_refl n)]
    simp

/-- `parseDecDigits` inverts `natDec`. -/
theorem parseDecDigits_natDec (n : Nat) : parseDecDigits (natDec n) = some n := by
  unfold parseDecDigits
  rw [if_neg, if_pos, decValue_natDec]
  · rw [List.all_eq_true]
    intro d hd
    have := natDec_digits n d hd
    simp only [isDigitByte, Bool.and_eq_true, decide_eq_true_eq]
    omega
  · simp only [List.isEmpty_eq_true]
    exact natDec_ne_nil n

/-- Every byte of `intDec` is a digit or the minus sign. -/
theorem intDec_mem (t : Int) : ∀ d ∈ intDec t, d = 45 ∨ (48 ≤ d ∧ d ≤ 57) := by
  unfold intDec
  by_cases hneg : t < 0
  · rw [if_pos hneg]
    intro d hd
    rcases List.mem_cons.mp hd with h | h
    · exact Or.inl h
    · exact Or.inr (natDec_digits _ d h)
  · rw [if_neg hneg]
    intro d hd
    exact Or.inr (natDec_digits _ d hd)

/-- `strconv.ParseInt` inverts the decimal printing of any int64 value. -/
theorem parseInt64_intDec (t : Int) (hlo : -9223372036854775808 ≤ t)
    (hhi : t < 9223372036854775808) : parseInt64 (intDec t) = some t := by
  unfold intDec
  by_cases hneg : t < 0
  · rw [if_pos hneg, parseInt64, if_neg (by norm_num), if_pos rfl]
    unfold parseIntNeg
    rw [parseDecDigits_natDec]
    dsimp only
    rw [if_pos (show t.natAbs ≤ 9223372036854775808 by omega)]
    congr 1
    omega
  · rw [if_neg hneg]
    obtain ⟨c, rest, hcr⟩ : ∃ c rest, natDec t.toNat = c :: rest := by
      rcases h' : natDec t.toNat with _ | ⟨c, rest⟩
      · exact absurd h' (natDec_ne_nil _)
      · exact ⟨c, rest, rfl⟩
    have hd := natDec_digits t.toNat c (hcr ▸ List.mem_cons_self c rest)
    rw [hcr, parseInt64, if_neg (by omega), if_neg (by omega)]
    show parseIntPos (c :: rest) = some t
    unfold parseIntPos
    rw [← hcr, parseDecDigits_natDec]
    dsimp only
    rw [if_pos (show t.toNat ≤ 9223372036854775807 by omega)]
    congr 1
    omega

/-- `hex.DecodeString` inverts one encoded hex digit. -/
theorem hexDigitVal_hexDigit (d : Nat) (h : d < 16) :
    hexDigitVal (hexDigit d) = some d := by
  unfold hexDigit hexDigitVal
  by_cases hc : d < 10
  · rw [if_pos hc, if_pos (by omega)]
    simp
  · rw [if_neg hc, if_neg (by omega), if_pos (by omega)]
    simp

/-- Every byte of a hex encoding is a digit or lowercase hex letter byte. -/
theorem hexEncode_digits (bs : List Nat) :
    ∀ d ∈ hexEncode bs, (48 ≤ d ∧ d ≤ 57) ∨ (97 ≤ d ∧ d ≤ 102) := by
  induction bs with
  | nil => intro d hd; cases hd
  | cons b rest ih =>
    intro d hd
    rw [hexEncode] at hd
    have hdig : ∀ x : Nat, x < 16 → (48 ≤ hexDigit x ∧ hexDigit x ≤ 57) ∨
        (97 ≤ hexDigit x ∧ hexDigit x ≤ 102) := by
      intro x hx
      unfold hexDigit
      by_cases hc : x < 10
      · rw [if_pos hc]
        omega
      · rw [if_neg hc]
        omega
    rcases List.mem_cons.mp hd with h | h
    · exact h ▸ hdig _ (Nat.mod_lt _ (by norm_num))
    · rcases List.mem_cons.mp h with h1 | h1
      · exact h1 ▸ hdig _ (Nat.mod_lt _ (by norm_num))
      · exact ih d h1

/-- `hex.DecodeString` inverts `hex.EncodeToString` on byte lists. -/
theorem hexDecode_hexEncode (bs : List Nat) (h : ∀ b ∈ bs, b < 256) :
    hexDecode (hexEncode bs) = some bs := by
  induction bs with
  | nil => rfl
  | cons b rest ih =>
    have hb := h b (List.mem_cons_self b rest)
    rw [hexEncode, hexDecode,
      hexDigitVal_hexDigit _ (Nat.mod_lt _ (by norm_num)),
      hexDigitVal_hexDigit _ (Nat.mod_lt _ (by norm_num)),
      ih (fun x hx => h x (List.mem_cons_of_mem b hx))]
    dsimp only
    have hbb : b / 16 % 16 * 16 + b % 16 = b := by
      have h16 : b / 16 < 16 := by omega
      rw [Nat.mod_eq_of_lt h16]
      omega
    rw [hbb]

/-- The four big-endian bytes of a word are bytes. -/
theorem wordToBytes_lt (w : Nat) : ∀ b ∈ wordToBytes w, b < 256 := by
  intro b hb
  simp only [wordToBytes, List.mem_cons, List.not_mem_nil, or_false] at hb
  rcases hb with h | h | h | h <;> subst h <;> exact Nat.mod_lt _ (by norm_num)

/-- SHA-256 digests are 32 bytes long. -/
theorem sha256_length (msg : List Nat) : (sha256 msg).length = 32 := by
  simp [sha256, wordToBytes]

/-- Every byte of a SHA-256 digest is a byte. -/
theorem sha256_lt (msg : List Nat) : ∀ b ∈ sha256 msg, b < 256 := by
  intro b hb
  simp only [sha256, List.mem_append] at hb
  rcases hb with ((((((h | h) | h) | h) | h) | h) | h) | h <;> exact wordToBytes_lt _ b h

/-- HMAC-SHA256 digests are 32 bytes long. -/
theorem hmacSHA256_length (key msg : List Nat) : (hmacSHA256 key msg).length = 32 := by
  simp [hmacSHA256, sha256_length]

/-- Every byte of an HMAC-SHA256 digest is a byte. -/
theorem hmacSHA256_lt (key msg : List Nat) : ∀ b ∈ hmacSHA256 key msg, b < 256 := by
  intro b hb
  simp only [hmacSHA256] at hb
  exact sha256_lt _ b hb

/-- An HMAC-SHA256 digest is nonempty. -/
theorem hmacSHA256_ne_nil (key msg : List Nat) : hmacSHA256 key msg ≠ [] := by
  intro h
  have := hmacSHA256_length key msg
  rw [h] at this
  simp at this

/-- The comma split of a well-formed header is its `t=` and `v1=` pairs. -/
theorem splitComma_buildHeader (t : Int) (sig : List Nat) :
    splitOnByte 44 (uac.buildHeader t sig) =
      [[116, 61] ++ intDec t, [118, 49, 61] ++ hexEncode sig] := by
  have h1 : uac.buildHeader t sig =
      ([116, 61] ++ intDec t) ++ 44 :: ([118, 49, 61] ++ hexEncode sig) := by
    simp [uac.buildHeader]
  rw [h1, splitOnByte_append, splitOnByte_not_mem]
  · intro hm
    rcases List.mem_append.mp hm with h | h
    · simp at h
    · rcases hexEncode_digits sig 44 h with h2 | h2 <;> omega
  · intro hm
    rcases List.mem_append.mp hm with h | h
    · simp at h
    · rcases intDec_mem t 44 h with h2 | h2 <;> omega

/-- The equals split of the `t=` pair. -/
theorem splitEq_tPair (t : Int) :
    splitOnByte 61 ([116, 61] ++ intDec t) = [[116], intDec t] := by
  have h1 : [116, 61] ++ intDec t = [116] ++ 61 :: intDec t := by simp
  rw [h1, splitOnByte_append, splitOnByte_not_mem]
  · intro hm
    rcases intDec_mem t 61 hm with h2 | h2 <;> omega
  · simp

/-- The equals split of the `v1=` pair. -/
theorem splitEq_vPair (sig : List Nat) :
    splitOnByte 61 ([118, 49, 61] ++ hexEncode sig) = [[118, 49], hexEncode sig] := by
  have h1 : [118, 49, 61] ++ hexEncode sig = [118, 49] ++ 61 :: hexEncode sig := by
    simp
  rw [h1, splitOnByte_append, splitOnByte_not_mem]
  · intro hm
    rcases hexEncode_digits sig 61 hm with h2 | h2 <;> omega
  · simp

/-- Running the pair loop on a well-formed header recovers the timestamp and
signature bytes, whatever state it starts from. -/
theorem parsePairs_buildHeader (t : Int) (sig : List Nat) (sh : uac.signedHeader)
    (hlo : -9223372036854775808 ≤ t) (hhi : t < 9223372036854775808)
    (hbytes : ∀ b ∈ sig, b < 256) :
    uac.parsePairs sh (splitOnByte 44 (uac.buildHeader t sig)) = .ok ⟨t, sig⟩ := by
  rw [splitComma_buildHeader, uac.parsePairs, splitEq_tPair]
  dsimp only
  rw [if_pos (show [116] = uac.tKey from rfl), parseInt64_intDec t hlo hhi]
  dsimp only
  rw [uac.parsePairs, splitEq_vPair]
  dsimp only
  rw [if_neg (by decide : ¬([118, 49] = uac.tKey)),
    if_pos (show [118, 49] = uac.v1Key from rfl), hexDecode_hexEncode sig hbytes]
  dsimp only
  rw [uac.parsePairs]

/-- Parsing a well-formed header: the signature bytes round-trip, and the
result is accepted exactly when they are nonempty. -/
theorem parseSignatureHeader_buildHeader (t : Int) (sig : List Nat)
    (hlo : -9223372036854775808 ≤ t) (hhi : t < 9223372036854775808)
    (hbytes : ∀ b ∈ sig, b < 256) :
    uac.parseSignatureHeader (uac.buildHeader t sig) =
      if sig = [] then .error uac.SigError.noValidSignature
      else .ok ⟨t, sig⟩ := by
  unfold uac.parseSignatureHeader
  rw [if_neg (show ¬uac.buildHeader t sig = [] by simp [uac.buildHeader]),
    parsePairs_buildHeader t sig _ hlo hhi hbytes]

/-- **C2.**  The signature scheme round-trips: for every payload `P`, secret
`S` and int64 timestamp `T`, the header `t=T,v1=hex(HMAC-SHA256(S, T.P))`
verifies against `P`.  A header carrying any digest whose bytes differ from
that HMAC fails with an error, and verifying a payload `P'` against `P`'s
header succeeds exactly when the two payloads' HMAC digests coincide — so
any byte mutation of `P` that changes its digest is rejected. -/
theorem c2_signature_scheme (P S : List Nat) (T : Int)
    (hlo : -9223372036854775808 ≤ T) (hhi : T < 9223372036854775808) :
    uac.validatePayload P (uac.buildHeader T (uac.computeSignature T P S)) S =
      .ok () ∧
    (∀ sig', (∀ b ∈ sig', b < 256) → sig' ≠ uac.computeSignature T P S →
      uac.validatePayload P (uac.buildHeader T sig') S =
        .error uac.SigError.noValidSignature) ∧
    (∀ P', uac.validatePayload P' (uac.buildHeader T (uac.computeSignature T P S)) S =
      if uac.computeSignature T P' S = uac.computeSignature T P S then .ok ()
      else .error uac.SigError.noValidSignature) := by
  have hsig_bytes : ∀ b ∈ uac.computeSignature T P S, b < 256 :=
    fun b hb => hmacSHA256_lt _ _ b hb
  have hsig_ne : uac.computeSignature T P S ≠ [] := hmacSHA256_ne_nil _ _
  refine ⟨?_, ?_, ?_⟩
  · unfold uac.validatePayload
    rw [parseSignatureHeader_buildHeader T _ hlo hhi hsig_bytes, if_neg hsig_ne]
    dsimp only
    rw [if_pos rfl]
  · intro sig' hbytes' hne
    unfold uac.validatePayload
    rw [parseSignatureHeader_buildHeader T sig' hlo hhi hbytes']
    by_cases h0 : sig' = []
    · rw [if_pos h0]
    · rw [if_neg h0]
      dsimp only
      rw [if_neg (fun hEq => hne hEq.symm)]
  · intro P'
    unfold uac.validatePayload
    rw [parseSignatureHeader_buildHeader T _ hlo hhi hsig_bytes, if_neg hsig_ne]

/-- Witness for C2: payload `"x"` over secret `"k"` at timestamp 1 verifies;
the mutated payload `"y"` has a different digest and is rejected. -/
theorem c2_signature_scheme_witness :
    uac.validatePayload [120]
      (uac.buildHeader 1 (uac.computeSignature 1 [120] [107])) [107] = .ok () ∧
    uac.validatePayload [121]
      (uac.buildHeader 1 (uac.computeSignature 1 [120] [107])) [107] =
      .error uac.SigError.noValidSignature := by
  have h := c2_signature_scheme [120] [107] 1 (by decide) (by decide)
  refine ⟨h.1, ?_⟩
  rw [h.2.2 [121],
    if_neg (by decide :
      ¬(uac.computeSignature 1 [121] [107] = uac.computeSignature 1 [120] [107]))]

/-- The pair predicate that makes `parseSignatureHeader` reject a header:
a pair that does not split into exactly two parts, or a `t` pair whose value
is not a decimal int64. -/
def badPair (p : List Nat) : Bool :=
  match splitOnByte 61 p with
  | [k, v] => k == uac.tKey && (parseInt64 v).isNone
  | _ => true

/-- The only error the pair loop ever returns is the invalid-header error. -/
theorem parsePairs_error_val (pairs : List (List Nat)) :
    ∀ sh e, uac.parsePairs sh pairs = .error e → e = uac.SigError.invalidHeader := by
  induction pairs with
  | nil =>
    intro sh e h
    simp [uac.parsePairs] at h
  | cons p rest ih =>
    intro sh e h
    rw [uac.parsePairs] at h
    rcases hsp : splitOnByte 61 p with _ | ⟨k, tail⟩
    · rw [hsp] at h
      injection h with h2
      exact h2.symm
    · rcases tail with _ | ⟨v, tail2⟩
      · rw [hsp] at h
        injection h with h2
        exact h2.symm
      · rcases tail2 with _ | ⟨x, xs⟩
        · rw [hsp] at h
          dsimp only at h
          by_cases hk : k = uac.tKey
          · rw [if_pos hk] at h
            rcases hpi : parseInt64 v with _ | ts
            · rw [hpi] at h
              injection h with h2
              exact h2.symm
            · rw [hpi] at h
              exact ih _ _ h
          · rw [if_neg hk] at h
            by_cases hk2 : k = uac.v1Key
            · rw [if_pos hk2] at h
              rcases hx : hexDecode v with _ | sg
              · rw [hx] at h
                exact ih _ _ h
              · rw [hx] at h
                exact ih _ _ h
            · rw [if_neg hk2] at h
              exact ih _ _ h
        · rw [hsp] at h
          injection h with h2
          exact h2.symm

/-- A bad pair anywhere in the list makes the pair loop fail with the
invalid-header error, from any starting state. -/
theorem parsePairs_bad (pairs : List (List Nat)) :
    ∀ sh, (∃ p ∈ pairs, badPair p = true) →
      uac.parsePairs sh pairs = .error uac.SigError.invalidHeader := by
  induction pairs with
  | nil =>
    intro sh h
    obtain ⟨p, hp, _⟩ := h
    cases hp
  | cons p rest ih =>
    intro sh h
    rw [uac.parsePairs]
    rcases hsp : splitOnByte 61 p with _ | ⟨k, tail⟩
    · rfl
    · rcases tail with _ | ⟨v, tail2⟩
      · rfl
      · rcases tail2 with _ | ⟨x, xs⟩
        · dsimp only
          have hbad_case : (k = uac.tKey ∧ parseInt64 v = none) ∨
              (∃ p' ∈ rest, badPair p' = true) := by
            obtain ⟨p', hp', hb⟩ := h
            rcases List.mem_cons.mp hp' with hEq | hmem
            · subst hEq
              rw [badPair, hsp] at hb
              dsimp only at hb
              rw [Bool.and_eq_true, beq_iff_eq, Option.isNone_iff_eq_none] at hb
              exact Or.inl hb
            · exact Or.inr ⟨p', hmem, hb⟩
          by_cases hk : k = uac.tKey
          · rw [if_pos hk]
            rcases hpi : parseInt64 v with _ | ts
            · rfl
            · dsimp only
              refine ih _ ?_
              rcases hbad_case with ⟨_, hnone⟩ | hr
              · rw [hpi] at hnone
                cases hnone
              · exact hr
          · rw [if_neg hk]
            have hr : ∃ p' ∈ rest, badPair p' = true := by
              rcases hbad_case with ⟨hkk, _⟩ | hr
              · exact absurd hkk hk
              · exact hr
            by_cases hk2 : k = uac.v1Key
            · rw [if_pos hk2]
              rcases hx : hexDecode v with _ | sg
              · exact ih _ hr
              · exact ih _ hr
            · rw [if_neg hk2]
              exact ih _ hr
        · rfl

/-- **C6 (amended).**  The verifier's failure kinds: an absent header yields
the not-signed error; a header containing an unparseable pair or a
non-decimal `t` value yields the invalid-header error; a parsed header with
no signature of a known version yields the no-valid-signature error; and a
digest mismatch after successful parsing yields the *same* no-valid-signature
error value — not a fourth, distinct kind. -/
theorem c6_error_kinds :
    uac.parseSignatureHeader [] = .error uac.SigError.notSigned ∧
    (∀ header, header ≠ [] →
      (∃ p ∈ splitOnByte 44 header, badPair p = true) →
      uac.parseSignatureHeader header = .error uac.SigError.invalidHeader) ∧
    (∀ header sh, header ≠ [] →
      uac.parsePairs ⟨uac.goZeroTimeUnix, []⟩ (splitOnByte 44 header) = .ok sh →
      (sh.signature = [] →
        uac.parseSignatureHeader header = .error uac.SigError.noValidSignature) ∧
      (sh.signature ≠ [] → uac.parseSignatureHeader header = .ok sh)) ∧
    (∀ P S header sh, uac.parseSignatureHeader header = .ok sh →
      uac.computeSignature sh.timestamp P S ≠ sh.signature →
      uac.validatePayload P header S = .error uac.SigError.noValidSignature) := by
  refine ⟨rfl, ?_, ?_, ?_⟩
  · intro header hne hbad
    unfold uac.parseSignatureHeader
    rw [if_neg hne, parsePairs_bad _ _ hbad]
  · intro header sh hne hok
    unfold uac.parseSignatureHeader
    rw [if_neg hne, hok]
    constructor
    · intro h0
      dsimp only
      rw [if_pos h0]
    · intro h0
      dsimp only
      rw [if_neg h0]
  · intro P S header sh hok hne
    unfold uac.validatePayload
    rw [hok]
    dsimp only
    rw [if_neg hne]

/-- Witness for C6: a header with a non-decimal `t` value is rejected as
invalid, and one with only an unknown version key has no valid signature. -/
theorem c6_error_kinds_witness :
    uac.parseSignatureHeader [116, 61, 97] = .error uac.SigError.invalidHeader ∧
    uac.parseSignatureHeader [] = .error uac.SigError.notSigned := by
  refine ⟨?_, c6_error_kinds.1⟩
  exact c6_error_kinds.2.1 [116, 61, 97] (by decide)
    ⟨[116, 61, 97], by decide, by decide⟩

/-- Counterexample to C6 as stated: a digest mismatch after successful
parsing (header `t=1,v1=00` whose one-byte signature cannot equal the 32-byte
HMAC) returns `ErrNoValidSignature` — the very same error value produced when
no signature of a known version is present (header `t=1`), so the mismatch
kind is not distinct from all three parse-failure kinds. -/
theorem c6_mismatch_error_not_distinct :
    uac.parseSignatureHeader [116, 61, 49, 44, 118, 49, 61, 48, 48] =
      .ok ⟨1, [0]⟩ ∧
    uac.validatePayload [120] [116, 61, 49, 44, 118, 49, 61, 48, 48] [107] =
      .error uac.SigError.noValidSignature ∧
    uac.parseSignatureHeader [116, 61, 49] =
      .error uac.SigError.noValidSignature := by
  refine ⟨by decide, ?_, by decide⟩
  unfold uac.validatePayload
  rw [(by decide : uac.parseSignatureHeader [116, 61, 49, 44, 118, 49, 61, 48, 48] =
    .ok ⟨1, [0]⟩)]
  dsimp only
  rw [if_neg ?hne]
  case hne =>
    intro hEq
    have := hmacSHA256_length [107] (intDec 1 ++ [46] ++ [120])
    rw [show uac.computeSignature (1 : Int) [120] [107] =
      hmacSHA256 [107] (intDec 1 ++ [46] ++ [120]) from rfl] at hEq
    rw [hEq] at this
    simp at this
